import Mathlib

/-!
Verification of the paper-source repository against its specification.

The development shallowly embeds the Python code of the repository:
strings are lists of characters, Python dictionaries are association
lists, exceptions are an explicit error type returned through Except,
and the external collaborators (the vector store similarity search, the
LLM client, the PDF text splitter) are function parameters.  Each
definition is translated from the named source function; definitions
whose code lives in a third-party library and not in the repository are
modelled from the specification and say so in their doc comment.
-/

namespace PaperRepo

/-- Python exception values observable in the embedded fragment.
The specification names some of these abstractly: its NotFoundError is
the KeyError of a failed dictionary lookup, its NoSourcesError is the
ValueError raised by PaperChat.source_and_summarize, and its
MissingAttributeError is the AttributeError of a missing tm_year. -/
inductive PyError where
  | attributeError
  | indexError
  | nameError
  | keyError (key : String)
  | valueError (msg : String)
  deriving DecidableEq

/-! ## Paper.sanitize_title (src/paper_class.py lines 57 to 71) -/

/-- The characters matched by the character class of the regex in
Paper.sanitize_title.  In the Python pattern the class is written with a
backslash-slash escape sequence, which inside a character class denotes
the single character slash, so the class holds these eight characters
and does not contain the backslash itself. -/
def forbiddenChars : List Char := ['/', ':', '*', '?', '"', '<', '>', '|']

/-- One character of re.sub applied with the class above: a character of
the class becomes an underscore, every other character is kept. -/
def replaceForbidden (c : Char) : Char :=
  if c ∈ forbiddenChars then '_' else c

/-- Python str.replace with the two-character needle newline-space and
an empty replacement: scan left to right, drop each non-overlapping
occurrence, and continue scanning after the dropped occurrence (the
scan does not back up, so dropping can juxtapose a newline and a space
into a fresh occurrence that is not dropped). -/
def removeNewlineSpace : List Char → List Char
  | [] => []
  | [c] => [c]
  | c :: d :: rest =>
      if c = '\n' ∧ d = ' ' then removeNewlineSpace rest
      else c :: removeNewlineSpace (d :: rest)

/-- Paper.sanitize_title: re.sub of the eight-character class to an
underscore, then str.replace removing newline-space. -/
def sanitize_title (t : List Char) : List Char :=
  removeNewlineSpace (t.map replaceForbidden)

/-- Decides whether a list of characters holds a newline immediately
followed by a space. -/
def containsNLSpace : List Char → Bool
  | [] => false
  | [_] => false
  | c :: d :: rest => (c == '\n' && d == ' ') || containsNLSpace (d :: rest)

/-- Decides whether a list of characters holds one of the eight
characters of the regex character class. -/
def containsForbidden (l : List Char) : Bool :=
  l.any fun c => forbiddenChars.contains c

/-- Paper.sanitize_title lifted to Lean strings, as used by the Paper
constructor. -/
def sanitizeString (s : String) : String :=
  String.mk (sanitize_title s.data)

/-! ## contains_arxiv_reference (src/tools.py lines 9 to 26)

The source applies re.search with the raw pattern
backslash-b arXiv colon backslash-d four, dot, backslash-d four-to-five,
backslash-b.  The embedding reproduces the semantics of that regex over
ASCII text: a word character for the word-boundary assertion, a greedy
four-or-five digit run with the backtracking re.search performs, and the
left-to-right scan over all start positions. -/

/-- A word character in the sense of the regex backslash-w over ASCII:
a letter, a digit, or an underscore. -/
def isWordChar (c : Char) : Bool := c.isAlphanum || c == '_'

/-- The word-boundary assertion placed before the letter a of arXiv:
satisfied at the start of the text or after a non-word character. -/
def boundaryBefore : Option Char → Bool
  | none => true
  | some c => !isWordChar c

/-- The word-boundary assertion placed after the final digit: satisfied
at the end of the text or before a non-word character. -/
def boundaryAfter : List Char → Bool
  | [] => true
  | c :: _ => !isWordChar c

/-- Consume exactly n digit characters, returning the remaining text,
or none when fewer than n digits lead the text. -/
def dropDigits : Nat → List Char → Option (List Char)
  | 0, l => some l
  | _ + 1, [] => none
  | n + 1, c :: rest => if c.isDigit then dropDigits n rest else none

/-- Consume a literal dot, returning the remaining text, or none. -/
def dropDot : List Char → Option (List Char)
  | c :: rest => if c = '.' then some rest else none
  | [] => none

/-- After the four digits of the second group, the greedy four-to-five
quantifier with the backtracking re.search performs: a fifth digit is
consumed when present and the word boundary is checked after it (when
the boundary fails there, the four-digit alternative also fails, since
the next character is a digit and hence a word character); when the
character after the fourth digit is not a digit, the boundary is
checked there instead. -/
def matchAfterDigits4 : List Char → Bool
  | [] => true
  | c :: r4 => if c.isDigit then boundaryAfter r4 else !isWordChar c

/-- Match, at the current position, four digits, a dot, then greedily
five or else four digits, then the trailing word boundary. -/
def matchDigitsTail (l : List Char) : Bool :=
  (dropDigits 4 l).elim false fun r1 =>
    (dropDot r1).elim false fun r2 =>
      (dropDigits 4 r2).elim false fun r3 => matchAfterDigits4 r3

/-- Match the whole pattern at the current position, given the character
just before the position (none at the start of the text). -/
def matchArxivAt (prev : Option Char) (l : List Char) : Bool :=
  match l with
  | c1 :: c2 :: c3 :: c4 :: c5 :: c6 :: rest =>
      boundaryBefore prev &&
      (c1 == 'a' && c2 == 'r' && c3 == 'X' && c4 == 'i' && c5 == 'v' && c6 == ':') &&
      matchDigitsTail rest
  | _ => false

/-- The scan of re.search: try to match at every position, left to
right, remembering the character before the current position. -/
def searchFrom : Option Char → List Char → Bool
  | prev, [] => matchArxivAt prev []
  | prev, c :: rest => matchArxivAt prev (c :: rest) || searchFrom (some c) rest

/-- tools.contains_arxiv_reference: true when re.search finds the
pattern anywhere in the input string. -/
def contains_arxiv_reference (s : List Char) : Bool :=
  searchFrom none s

/-- The character just before the current position after the scan has
walked past pre, starting from prev: the last character of pre, or prev
when pre is empty. -/
def lastOpt (prev : Option Char) (pre : List Char) : Option Char :=
  pre.foldl (fun _ c => some c) prev

/-- Declarative reading of the digits part of the pattern: four digits,
a dot, four or five digits, and a trailing word boundary (the text ends
or continues with a non-word character). -/
def DigitsTailSpec (l : List Char) : Prop :=
  ∃ ds es post, l = ds ++ '.' :: (es ++ post) ∧
    ds.length = 4 ∧ ds.all Char.isDigit = true ∧
    (es.length = 4 ∨ es.length = 5) ∧ es.all Char.isDigit = true ∧
    (post = [] ∨ ∃ q tl, post = q :: tl ∧ isWordChar q = false)

/-- Declarative reading of the whole pattern somewhere in the text: an
occurrence of the token arXiv colon at a word boundary (the text starts
there or the preceding character is a non-word character), followed by
the digit groups of DigitsTailSpec. -/
def ArxivRefSpec (s : List Char) : Prop :=
  ∃ pre tl, s = pre ++ 'a' :: 'r' :: 'X' :: 'i' :: 'v' :: ':' :: tl ∧
    DigitsTailSpec tl ∧
    (pre = [] ∨ ∃ p tp, pre = tp ++ [p] ∧ isWordChar p = false)

/-! ## The windowing chunker (spec section 4.2)

Both _process_paper implementations delegate splitting to the langchain
CharacterTextSplitter, whose code is not part of this repository. -/

/-- Modelled from the spec: the shared windowing algorithm of the
chunking strategies (the repository delegates splitting to the external
langchain CharacterTextSplitter, so the algorithm itself is not in
src/).  The spec says: given text of length L and window W with overlap
O (O smaller than W), chunk i spans the interval from i times (W - O)
to that plus W, clipped to L; stop when the window start reaches L.
The recursion takes the step S = W - O and a fuel argument bounding the
number of windows; any fuel at least the length of the text yields the
stated algorithm, and windowChunks below instantiates the fuel so. -/
def windowChunksGo (W S : Nat) : Nat → List Char → List (List Char)
  | _, [] => []
  | 0, _ :: _ => []
  | fuel + 1, c :: cs => ((c :: cs).take W) :: windowChunksGo W S fuel ((c :: cs).drop S)

/-- Modelled from the spec: the windowing chunker on a text, window W
and overlap O; see windowChunksGo. -/
def windowChunks (s : List Char) (W O : Nat) : List (List Char) :=
  windowChunksGo W (W - O) s.length s

/-- Concatenation of the first S characters of every chunk but the
last, followed by the last chunk whole, as in the reconstruction
property the spec states for the windowing chunker. -/
def reassemble (S : Nat) : List (List Char) → List Char
  | [] => []
  | [c] => c
  | c :: cs => c.take S ++ reassemble S cs

/-- chunk_size of the CharacterTextSplitter in
PaperContentSource._process_paper (src/paper_source.py line 139). -/
def content_chunk_size : Nat := 500

/-- chunk_overlap of the CharacterTextSplitter in
PaperContentSource._process_paper (src/paper_source.py line 139). -/
def content_chunk_overlap : Nat := 50

/-- chunk_overlap of the CharacterTextSplitter in
PaperSummarySource._process_paper (src/paper_source.py line 188). -/
def summary_chunk_overlap : Nat := 0

/-- Default chunk_size of PaperSummarySource (src/paper_source.py line
161). -/
def default_summary_chunk_size : Nat := 2000

/-! ## Paper (src/paper_class.py) -/

/-- The Paper record.  publish_date is kept only through the one
attribute the code reads from it, tm_year: some year when the stored
value is a time.struct_time, none when the value (a string or number)
lacks the attribute and reading it raises AttributeError. -/
structure Paper where
  title : String
  summary : String
  url : String
  authors : List String
  publish_date_tm_year : Option Int
  deriving DecidableEq

/-- Paper.__init__: stores the sanitized title and the remaining
attributes unchanged. -/
def Paper.make (title summary url : String) (authors : List String)
    (publish_date_tm_year : Option Int) : Paper :=
  { title := sanitizeString title
    summary := summary
    url := url
    authors := authors
    publish_date_tm_year := publish_date_tm_year }

/-- Paper.get_arxiv_citation: joins the authors with comma-space (an
empty author list joins to the empty string), reads tm_year from
publish_date (AttributeError when absent), and formats the citation. -/
def get_arxiv_citation (p : Paper) : Except PyError String :=
  let author_list := String.intercalate ", " p.authors
  match p.publish_date_tm_year with
  | none => Except.error PyError.attributeError
  | some year =>
      Except.ok (author_list ++ ", " ++ toString year ++ ". " ++ p.title ++ ". " ++ p.url)

/-- Paper.get_APA_citation: indexes authors at zero (IndexError on an
empty list, evaluated first in the f-string), then reads tm_year
(AttributeError when absent), and formats the citation. -/
def get_APA_citation (p : Paper) : Except PyError String :=
  match p.authors, p.publish_date_tm_year with
  | [], _ => Except.error PyError.indexError
  | _ :: _, none => Except.error PyError.attributeError
  | a :: _, some year => Except.ok (a ++ " et al. (" ++ toString year ++ ")")

/-! ## Documents and the Paper Source (src/paper_source.py) -/

/-- A langchain Document: the text of one chunk plus the metadata
fields this code reads or writes. -/
structure Document where
  page_content : List Char
  source : Option String := none
  page : Option Nat := none
  summary : Option String := none
  deriving DecidableEq

/-- PaperContentSource._process_paper, after the external PDF load and
split: the loop keeps a chunk unless ignore_references is set and the
chunk matches the reference filter, and stamps each kept chunk with the
source metadata equal to the paper title. -/
def processPaperContent (ignore_references : Bool) (p : Paper) : List Document → List Document
  | [] => []
  | d :: rest =>
      if ignore_references && contains_arxiv_reference d.page_content then
        processPaperContent ignore_references p rest
      else
        { d with source := some p.title } :: processPaperContent ignore_references p rest

/-- PaperSummarySource._process_paper, after the external split of the
summary: stamps every chunk with the source metadata equal to the paper
title. -/
def processPaperSummary (p : Paper) (docs : List Document) : List Document :=
  docs.map fun d => { d with source := some p.title }

/-- The doc_list built by _PaperSource.__init__: the processed chunks
of every registered paper, in registry order.  process stands for the
subclass _process_paper composed with the external splitter. -/
def initDocList (process : Paper → List Document) (papers : List (String × Paper)) : List Document :=
  (papers.map fun tp => process tp.2).flatten

/-- _PaperSource.retrieve: a falsy num_retrieval (None, or the integer
zero) is replaced by the number of registered papers, and the
similarity search of the vector store (an external collaborator, passed
as a function) is asked for that many results. -/
def retrieve (papers : List (String × Paper)) (search : String → Int → List Document)
    (query : String) (num_retrieval : Option Int) : List Document :=
  let k : Int :=
    match num_retrieval with
    | none => (papers.length : Int)
    | some n => if n = 0 then (papers.length : Int) else n
  search query k

/-! ## PaperChat.source_and_summarize (src/paper_chat.py lines 42 to 64) -/

/-- The fixed prompt template of PaperChat.source_and_summarize, with
the user query and the chunk content interpolated where the f-string
interpolates them. -/
def summarize_prompt (user_query : String) (content : List Char) : String :=
  "Summarize the following paper contents with exactly ONE concise sentence for how it relates to "
    ++ user_query
    ++ ", output it in the format of \x27XXXXXXX (A Question/Method/Model/Concept/Results/Conclusion etc.) was proposed/raised/mentioned/analyzed/found that XXXXX\x27: "
    ++ String.mk content
    ++ "\nPlease do not mention \x27this paper\x27 or \x27figure\x27 or \x27table\x27 in the summary."

/-- The error PaperChat.source_and_summarize raises on an empty
retrieval; the spec names it NoSourcesError. -/
def noSourcesError : PyError := PyError.valueError "No sources found."

/-- The summarization loop of source_and_summarize: one LLM call per
chunk, the answer stored in the summary metadata of that chunk.  The
second component records the prompt of every LLM call issued, in
order. -/
def summarizeLoop (agent : String → String) (user_query : String) :
    List Document → List Document × List String
  | [] => ([], [])
  | s :: rest =>
      let p := summarize_prompt user_query s.page_content
      let sm := agent p
      let r := summarizeLoop agent user_query rest
      ({ s with summary := some sm } :: r.1, p :: r.2)

/-- PaperChat.source_and_summarize: retrieve, raise when nothing came
back (before any LLM call), otherwise run the summarization loop and
return the mutated chunks.  The second component lists the prompts of
the LLM calls performed. -/
def source_and_summarize (papers : List (String × Paper))
    (search : String → Int → List Document) (agent : String → String)
    (user_query : String) (num_retrieval : Option Int) :
    Except PyError (List Document) × List String :=
  let sources := retrieve papers search user_query num_retrieval
  if sources.length = 0 then (Except.error noSourcesError, [])
  else
    let r := summarizeLoop agent user_query sources
    (Except.ok r.1, r.2)

/-! ## PaperCollection (src/paper_collection.py) -/

/-- The PaperCollection state: the registry of its paper summary
source, as returned by get_all_papers. -/
structure PaperCollection where
  paper_summary_source_papers : List (String × Paper)

/-- PaperCollection.get_paper as written at src/paper_collection.py
line 40: the body returns get_all_papers()[title], naming the plain
global get_all_papers rather than the method self.get_all_papers.  No
such global exists in the module, so Python raises NameError on every
call, before any lookup happens. -/
def PaperCollection.get_paper (_c : PaperCollection) (_title : String) : Except PyError Paper :=
  Except.error PyError.nameError

/-- The lookup get_paper evidently intends (the body with the missing
self. restored): index the registry dictionary by title, raising
KeyError (the NotFoundError of the spec) when the title is absent. -/
def PaperCollection.get_paper_intended (c : PaperCollection) (title : String) :
    Except PyError Paper :=
  match c.paper_summary_source_papers.lookup title with
  | some p => Except.ok p
  | none => Except.error (PyError.keyError title)

/-- A one-character document used as a concrete splitter output in
closed instances. -/
def sampleDoc : Document := { page_content := ['x'] }

/-- A concrete paper record with no authors and a year, for closed
instances. -/
def paperNoAuthors : Paper :=
  { title := "T", summary := "", url := "http://u", authors := [],
    publish_date_tm_year := some 2023 }

/-- A concrete paper record with two authors and a year, for closed
instances. -/
def paperTwoAuthors : Paper :=
  { title := "T", summary := "s", url := "u", authors := ["A", "B"],
    publish_date_tm_year := some 2020 }

/-- A concrete paper titled A, built through the constructor, for
closed instances. -/
def paperA : Paper := Paper.make "A" "s" "u" ["X"] (some 2020)

/-- A concrete paper titled B, built through the constructor, for
closed instances. -/
def paperB : Paper := Paper.make "B" "s" "u" [] none

/-- A concrete collection registering paperA under its title. -/
def collectionA : PaperCollection := { paper_summary_source_papers := [("A", paperA)] }

/-- The chunk sampleDoc stamped with the source B, for closed
instances. -/
def sampleDocB : Document := { page_content := ['x'], source := some "B" }

/-! # Theorems -/

/-! ## Lemmas about sanitize_title -/

/-- Removing newline-space occurrences only ever drops characters. -/
theorem mem_of_mem_removeNewlineSpace {c : Char} {l : List Char} :
    c ∈ removeNewlineSpace l → c ∈ l := by
  induction l using removeNewlineSpace.induct with
  | case1 => intro h; simp [removeNewlineSpace] at h
  | case2 e => intro h; simpa [removeNewlineSpace] using h
  | case3 e d rest hcd ih =>
      intro h
      rw [removeNewlineSpace, if_pos hcd] at h
      simp [ih h]
  | case4 e d rest hcd ih =>
      intro h
      rw [removeNewlineSpace, if_neg hcd] at h
      simp only [List.mem_cons] at h ⊢
      rcases h with he | hm
      · exact Or.inl he
      · exact Or.inr (by simpa using ih (by simpa using hm))

/-- The character substitution never outputs a character of the class. -/
theorem replaceForbidden_not_mem (c : Char) : replaceForbidden c ∉ forbiddenChars := by
  by_cases h : c ∈ forbiddenChars
  · simp only [replaceForbidden, if_pos h]
    decide
  · simpa [replaceForbidden, if_neg h] using h

/-- containsForbidden is false on a list none of whose characters is in
the class. -/
theorem containsForbidden_eq_false {l : List Char} (h : ∀ c ∈ l, c ∉ forbiddenChars) :
    containsForbidden l = false := by
  simp only [containsForbidden, List.any_eq_false]
  intro c hc
  simpa using h c hc

/-- containsNLSpace is false on a list with no newline at all. -/
theorem containsNLSpace_eq_false_of_not_mem {l : List Char} (h : '\n' ∉ l) :
    containsNLSpace l = false := by
  induction l with
  | nil => rfl
  | cons c rest ih =>
      cases rest with
      | nil => rfl
      | cons d rest2 =>
          have hc : c ≠ '\n' := fun he => h (by simp [he])
          have hrest : '\n' ∉ d :: rest2 := fun hm => h (List.mem_cons_of_mem _ hm)
          simp [containsNLSpace, ih hrest, hc]

/-- Substitution reaches a character x outside the class and distinct
from the underscore only from x itself. -/
theorem replaceForbidden_eq_iff {c x : Char} (hx : x ∉ forbiddenChars) (hu : x ≠ '_') :
    replaceForbidden c = x ↔ c = x := by
  by_cases h : c ∈ forbiddenChars
  · have hcx : c ≠ x := fun he => hx (he ▸ h)
    simp [replaceForbidden, h, hcx, Ne.symm hu]
  · simp [replaceForbidden, h]

/-- The character substitution is idempotent. -/
theorem replaceForbidden_idem (c : Char) :
    replaceForbidden (replaceForbidden c) = replaceForbidden c := by
  by_cases h : c ∈ forbiddenChars <;> simp [replaceForbidden, h]

/-- The character substitution commutes with the newline-space
removal: it maps newline and space to themselves and reaches neither
from any other character, so the occurrences are at the same
positions. -/
theorem map_replaceForbidden_removeNewlineSpace (l : List Char) :
    (removeNewlineSpace l).map replaceForbidden = removeNewlineSpace (l.map replaceForbidden) := by
  induction l using removeNewlineSpace.induct with
  | case1 => rfl
  | case2 e => rfl
  | case3 e d rest hcd ih =>
      obtain ⟨rfl, rfl⟩ := hcd
      have h1 : replaceForbidden '\n' = '\n' := by decide
      have h2 : replaceForbidden ' ' = ' ' := by decide
      simp only [List.map_cons, h1, h2]
      rw [removeNewlineSpace, if_pos ⟨rfl, rfl⟩, removeNewlineSpace, if_pos ⟨rfl, rfl⟩]
      exact ih
  | case4 e d rest hcd ih =>
      have hcd' : ¬(replaceForbidden e = '\n' ∧ replaceForbidden d = ' ') := by
        intro ⟨h1, h2⟩
        exact hcd ⟨(replaceForbidden_eq_iff (by decide) (by decide)).mp h1,
          (replaceForbidden_eq_iff (by decide) (by decide)).mp h2⟩
      rw [removeNewlineSpace, if_neg hcd]
      simp only [List.map_cons]
      rw [removeNewlineSpace, if_neg hcd', ih]
      simp only [List.map_cons]

/-- The newline-space removal fixes any list with no occurrence left. -/
theorem removeNewlineSpace_eq_self {l : List Char} (h : containsNLSpace l = false) :
    removeNewlineSpace l = l := by
  induction l using removeNewlineSpace.induct with
  | case1 => rfl
  | case2 e => rfl
  | case3 e d rest hcd ih =>
      obtain ⟨rfl, rfl⟩ := hcd
      simp [containsNLSpace] at h
  | case4 e d rest hcd ih =>
      have h' : containsNLSpace (d :: rest) = false := by
        rw [containsNLSpace] at h
        exact (Bool.or_eq_false_iff.mp h).2
      rw [removeNewlineSpace, if_neg hcd, ih h']

/-! ## C1 -/

/-- C1 fails on the code: the regex character class does not contain
the backslash (its backslash-slash escape denotes the slash), so a
backslash survives sanitization even though the claim lists it among
the nine replaced characters; and removing a newline-space occurrence
can juxtapose a remaining newline with a remaining space, so the
result can still contain the newline-space sequence. -/
theorem C1_counterexample :
    sanitize_title ['a', '\\', 'b'] = ['a', '\\', 'b'] ∧
    '\\' ∈ ['/', '\\', ':', '*', '?', '"', '<', '>', '|'] ∧
    sanitize_title ['\n', '\n', ' ', ' '] = ['\n', ' '] ∧
    containsNLSpace (sanitize_title ['\n', '\n', ' ', ' ']) = true := by decide

/-- C1 (amended): sanitize replaces each of the eight characters slash,
colon, star, question mark, double quote, less than, greater than and
pipe with an underscore (the backslash is not replaced), and removes
newline-space occurrences in one left-to-right pass; the result
contains none of the eight characters, and, whenever the input has no
newline, no newline-space occurrence either. -/
theorem C1_sanitize_correct (t : List Char) :
    containsForbidden (sanitize_title t) = false ∧
    ('\n' ∉ t → containsNLSpace (sanitize_title t) = false) := by
  constructor
  · apply containsForbidden_eq_false
    intro c hc
    rcases List.mem_map.mp (mem_of_mem_removeNewlineSpace hc) with ⟨d, _, rfl⟩
    exact replaceForbidden_not_mem d
  · intro hnl
    apply containsNLSpace_eq_false_of_not_mem
    intro hmem
    rcases List.mem_map.mp (mem_of_mem_removeNewlineSpace hmem) with ⟨d, hd, hEq⟩
    have hdn : d = '\n' := (replaceForbidden_eq_iff (by decide) (by decide)).mp hEq
    exact hnl (hdn ▸ hd)

/-- Closed instance of C1_sanitize_correct at a concrete title. -/
theorem C1_sanitize_correct_witness :
    containsForbidden (sanitize_title ['a', '/', 'b']) = false ∧
    containsNLSpace (sanitize_title ['a', '/', 'b']) = false :=
  ⟨(C1_sanitize_correct ['a', '/', 'b']).1,
   (C1_sanitize_correct ['a', '/', 'b']).2 (by decide)⟩

/-! ## C2 -/

/-- C2 fails on the code: sanitizing the four-character title
newline-newline-space-space yields newline-space (the removal scan does
not revisit the junction it creates), and sanitizing again yields the
empty title. -/
theorem C2_counterexample :
    sanitize_title (sanitize_title ['\n', '\n', ' ', ' ']) ≠
      sanitize_title ['\n', '\n', ' ', ' '] := by decide

/-- C2 (amended): sanitization is idempotent on every title whose
sanitized form has no newline-space occurrence left (in particular on
every title without a newline); in general one removal pass can create
a new newline-space occurrence, which only a second pass removes. -/
theorem C2_sanitize_idem (t : List Char)
    (h : containsNLSpace (sanitize_title t) = false) :
    sanitize_title (sanitize_title t) = sanitize_title t := by
  have hmm : sanitize_title (sanitize_title t) =
      removeNewlineSpace (removeNewlineSpace (List.map replaceForbidden t)) := by
    unfold sanitize_title
    rw [map_replaceForbidden_removeNewlineSpace, List.map_map]
    congr 1
    congr 1
    exact List.map_congr_left fun a _ => replaceForbidden_idem a
  rw [hmm]
  exact removeNewlineSpace_eq_self h

/-- Closed instance of C2_sanitize_idem at a concrete title. -/
theorem C2_sanitize_idem_witness :
    sanitize_title (sanitize_title ['a', '/', 'b']) = sanitize_title ['a', '/', 'b'] :=
  C2_sanitize_idem ['a', '/', 'b'] (by decide)

/-! ## Lemmas about the windowing chunker -/

/-- The chunker yields no chunk on the empty text, whatever the fuel. -/
theorem windowChunksGo_nil (W S fuel : Nat) : windowChunksGo W S fuel [] = [] := by
  cases fuel <;> rfl

/-- With enough fuel, a nonempty text yields at least one chunk. -/
theorem windowChunksGo_ne_nil {W S fuel : Nat} {s : List Char}
    (hs : s ≠ []) (hfuel : s.length ≤ fuel) : windowChunksGo W S fuel s ≠ [] := by
  cases s with
  | nil => exact absurd rfl hs
  | cons c cs =>
      cases fuel with
      | zero => simp at hfuel
      | succ n => simp [windowChunksGo]

/-- Chunk count of the windowing recursion on a nonempty text: the
ceiling of length over step. -/
theorem windowChunksGo_length {W S : Nat} (hS : 0 < S) :
    ∀ (fuel : Nat) (s : List Char), s ≠ [] → s.length ≤ fuel →
      (windowChunksGo W S fuel s).length = (s.length - 1) / S + 1 := by
  intro fuel
  induction fuel with
  | zero =>
      intro s hs hl
      cases s with
      | nil => exact absurd rfl hs
      | cons c cs => simp at hl
  | succ n ih =>
      intro s hs hl
      cases s with
      | nil => exact absurd rfl hs
      | cons c cs =>
          rw [windowChunksGo]
          by_cases hdrop : (c :: cs).drop S = []
          · have hlen : cs.length + 1 ≤ S := by
              simpa using List.drop_eq_nil_iff.mp hdrop
            rw [hdrop, windowChunksGo_nil]
            have h0 : ((c :: cs).length - 1) / S = 0 :=
              Nat.div_eq_of_lt (by simp only [List.length_cons]; omega)
            rw [h0]
            simp
          · have hgt : S < cs.length + 1 := by
              by_contra hc
              exact hdrop (List.drop_eq_nil_iff.mpr (by simp only [List.length_cons]; omega))
            have hfn : ((c :: cs).drop S).length ≤ n := by
              rw [List.length_drop]
              simp only [List.length_cons] at hl ⊢
              omega
            have hrec := ih ((c :: cs).drop S) hdrop hfn
            simp only [List.length_cons, hrec, List.length_drop]
            have e1 : cs.length + 1 - 1 = (cs.length + 1 - S - 1) + S := by omega
            rw [e1, Nat.add_div_right _ hS]

/-- Chunk i of the windowing recursion is the window of width W
starting at i times the step, and there is a chunk i exactly when that
start lies inside the text. -/
theorem windowChunksGo_getElem? {W S : Nat} (hS : 0 < S) :
    ∀ (fuel : Nat) (s : List Char) (i : Nat), s.length ≤ fuel →
      (windowChunksGo W S fuel s)[i]? =
        if i * S < s.length then some ((s.drop (i * S)).take W) else none := by
  intro fuel
  induction fuel with
  | zero =>
      intro s i hl
      cases s with
      | nil => simp [windowChunksGo_nil]
      | cons c cs => simp at hl
  | succ n ih =>
      intro s i hl
      cases s with
      | nil => simp [windowChunksGo_nil]
      | cons c cs =>
          rw [windowChunksGo]
          cases i with
          | zero => simp
          | succ j =>
              rw [List.getElem?_cons_succ]
              rw [ih ((c :: cs).drop S) j (by rw [List.length_drop]; omega)]
              rw [List.length_drop, List.drop_drop]
              have e1 : S + j * S = (j + 1) * S := by ring
              rw [e1]
              simp only [lt_tsub_iff_right, Nat.succ_mul]

/-- Reassembling the chunks of the windowing recursion gives back the
text: consecutive window starts are step apart, each non-final chunk is
at least step long, and the final chunk runs to the end. -/
theorem reassemble_windowChunksGo {W S : Nat} (hS : 0 < S) (hSW : S ≤ W) :
    ∀ (fuel : Nat) (s : List Char), s.length ≤ fuel →
      reassemble S (windowChunksGo W S fuel s) = s := by
  intro fuel
  induction fuel with
  | zero =>
      intro s hl
      cases s with
      | nil => rfl
      | cons c cs => simp at hl
  | succ n ih =>
      intro s hl
      cases s with
      | nil => rfl
      | cons c cs =>
          rw [windowChunksGo]
          by_cases hdrop : (c :: cs).drop S = []
          · have hlen : (c :: cs).length ≤ S := List.drop_eq_nil_iff.mp hdrop
            rw [hdrop, windowChunksGo_nil, reassemble]
            exact List.take_of_length_le (le_trans hlen hSW)
          · have hfn : ((c :: cs).drop S).length ≤ n := by
              rw [List.length_drop]
              simp only [List.length_cons] at hl ⊢
              omega
            have hne := windowChunksGo_ne_nil (W := W) (S := S) hdrop hfn
            obtain ⟨r, rs, hr⟩ := List.exists_cons_of_ne_nil hne
            rw [hr, reassemble, ← hr, ih _ hfn, List.take_take, min_eq_left hSW,
              List.take_append_drop]
            simp

/-! ## Lemmas about the reference filter -/

/-- A successful digit consumption splits the text after a digit run of
the requested length. -/
theorem dropDigits_some {n : Nat} {l r : List Char} (h : dropDigits n l = some r) :
    ∃ ds, l = ds ++ r ∧ ds.length = n ∧ ds.all Char.isDigit = true := by
  induction n generalizing l with
  | zero =>
      rw [dropDigits] at h
      injection h with h
      exact ⟨[], by simp [h]⟩
  | succ m ih =>
      cases l with
      | nil => cases h
      | cons c cl =>
          rw [dropDigits] at h
          by_cases hc : c.isDigit
          · rw [if_pos hc] at h
            obtain ⟨ds, rfl, hlen, hall⟩ := ih h
            exact ⟨c :: ds, rfl, by simp [hlen], by simp [hall, hc]⟩
          · rw [if_neg hc] at h
            cases h

/-- Digit consumption succeeds on a digit run of the requested length
followed by anything. -/
theorem dropDigits_append {ds r : List Char} (hall : ds.all Char.isDigit = true) :
    dropDigits ds.length (ds ++ r) = some r := by
  induction ds with
  | nil => rfl
  | cons d ds' ih =>
      simp only [List.all_cons, Bool.and_eq_true] at hall
      simp only [List.length_cons, List.cons_append]
      rw [dropDigits, if_pos hall.1]
      exact ih hall.2

/-- A successful dot consumption means the text started with a dot. -/
theorem dropDot_some {r1 r2 : List Char} (h : dropDot r1 = some r2) : r1 = '.' :: r2 := by
  cases r1 with
  | nil => cases h
  | cons c rest =>
      rw [dropDot] at h
      by_cases hc : c = '.'
      · rw [if_pos hc] at h
        injection h with h
        rw [hc, h]
      · rw [if_neg hc] at h
        cases h

/-- A non-word character is not a digit. -/
theorem isDigit_eq_false_of_not_word {q : Char} (h : isWordChar q = false) :
    q.isDigit = false := by
  simp only [isWordChar, Char.isAlphanum, Bool.or_eq_false_iff] at h
  exact h.1.2

/-- Soundness of the digits matcher against its declarative reading. -/
theorem matchDigitsTail_sound {l : List Char} (h : matchDigitsTail l = true) :
    DigitsTailSpec l := by
  rw [matchDigitsTail] at h
  cases h1 : dropDigits 4 l with
  | none => rw [h1] at h; cases h
  | some r1 =>
      rw [h1, Option.elim_some] at h
      cases h2 : dropDot r1 with
      | none => rw [h2] at h; cases h
      | some r2 =>
          rw [h2, Option.elim_some] at h
          cases h3 : dropDigits 4 r2 with
          | none => rw [h3] at h; cases h
          | some r3 =>
              rw [h3, Option.elim_some] at h
              obtain ⟨ds, rfl, hdl, hda⟩ := dropDigits_some h1
              obtain rfl := dropDot_some h2
              obtain ⟨es4, rfl, hel, hea⟩ := dropDigits_some h3
              cases r3 with
              | nil => exact ⟨ds, es4, [], by simp, hdl, hda, Or.inl hel, hea, Or.inl rfl⟩
              | cons c r4 =>
                  rw [matchAfterDigits4] at h
                  by_cases hc : c.isDigit
                  · rw [if_pos hc] at h
                    refine ⟨ds, es4 ++ [c], r4, by simp, hdl, hda,
                      Or.inr (by simp [hel]), by simp [hea, hc], ?_⟩
                    cases r4 with
                    | nil => exact Or.inl rfl
                    | cons q tl =>
                        refine Or.inr ⟨q, tl, rfl, ?_⟩
                        simpa [boundaryAfter] using h
                  · rw [if_neg hc] at h
                    exact ⟨ds, es4, c :: r4, by simp, hdl, hda, Or.inl hel, hea,
                      Or.inr ⟨c, r4, rfl, by simpa using h⟩⟩

/-- Completeness of the digits matcher against its declarative
reading. -/
theorem matchDigitsTail_complete {l : List Char} (h : DigitsTailSpec l) :
    matchDigitsTail l = true := by
  obtain ⟨ds, es, post, rfl, hdl, hda, hel, hea, hpost⟩ := h
  have h1 : dropDigits 4 (ds ++ '.' :: (es ++ post)) = some ('.' :: (es ++ post)) := by
    rw [← hdl]
    exact dropDigits_append hda
  rw [matchDigitsTail, h1, Option.elim_some]
  rw [show dropDot ('.' :: (es ++ post)) = some (es ++ post) from by simp [dropDot],
    Option.elim_some]
  rcases hel with h4 | h5
  · have h3 : dropDigits 4 (es ++ post) = some post := by
      rw [← h4]
      exact dropDigits_append hea
    rw [h3, Option.elim_some]
    rcases hpost with rfl | ⟨q, tl, rfl, hq⟩
    · rfl
    · rw [matchAfterDigits4, if_neg (by simp [isDigit_eq_false_of_not_word hq])]
      simp [hq]
  · rcases List.eq_nil_or_concat es with rfl | ⟨es4, e, rfl⟩
    · simp at h5
    · simp only [List.concat_eq_append] at hea h5 ⊢
      have hl4 : es4.length = 4 := by simpa using h5
      have hall : es4.all Char.isDigit = true ∧ e.isDigit = true := by simpa using hea
      have h3 : dropDigits 4 (es4 ++ (e :: post)) = some (e :: post) := by
        rw [← hl4]
        exact dropDigits_append hall.1
      rw [List.append_assoc, List.singleton_append, h3, Option.elim_some]
      rw [matchAfterDigits4, if_pos hall.2]
      rcases hpost with rfl | ⟨q, tl, rfl, hq⟩
      · rfl
      · simpa [boundaryAfter] using hq

/-- The position matcher holds exactly when the text at the position
starts with the token and the digit groups, at a word boundary. -/
theorem matchArxivAt_iff {prev : Option Char} {l : List Char} :
    matchArxivAt prev l = true ↔
      boundaryBefore prev = true ∧
      ∃ tl, l = 'a' :: 'r' :: 'X' :: 'i' :: 'v' :: ':' :: tl ∧ matchDigitsTail tl = true := by
  constructor
  · intro h
    rcases l with _ | ⟨c1, _ | ⟨c2, _ | ⟨c3, _ | ⟨c4, _ | ⟨c5, _ | ⟨c6, rest⟩⟩⟩⟩⟩⟩ <;>
      simp [matchArxivAt] at h
    obtain ⟨⟨hb, ⟨⟨⟨⟨h1, h2⟩, h3⟩, h4⟩, h5⟩, h6⟩, ht⟩ := h
    subst h1
    subst h2
    subst h3
    subst h4
    subst h5
    subst h6
    exact ⟨hb, rest, rfl, ht⟩
  · rintro ⟨hb, tl, rfl, ht⟩
    rw [matchArxivAt]
    simp [hb, ht]

/-- The last character the scan remembers after walking a concat. -/
theorem lastOpt_concat (prev : Option Char) (tp : List Char) (p : Char) :
    lastOpt prev (tp ++ [p]) = some p := by
  simp [lastOpt, List.foldl_append]

/-- The scan succeeds exactly when the position matcher succeeds at
some split of the text, with the remembered previous character. -/
theorem searchFrom_iff {l : List Char} : ∀ {prev : Option Char},
    searchFrom prev l = true ↔
      ∃ pre post, l = pre ++ post ∧ matchArxivAt (lastOpt prev pre) post = true := by
  induction l with
  | nil =>
      intro prev
      constructor
      · intro h
        simp [searchFrom, matchArxivAt] at h
      · rintro ⟨pre, post, heq, hm⟩
        obtain ⟨rfl, rfl⟩ := List.append_eq_nil.mp heq.symm
        simp [matchArxivAt, lastOpt] at hm
  | cons c rest ih =>
      intro prev
      rw [searchFrom, Bool.or_eq_true]
      constructor
      · rintro (h | h)
        · exact ⟨[], c :: rest, rfl, h⟩
        · obtain ⟨pre, post, rfl, hm⟩ := ih.mp h
          exact ⟨c :: pre, post, rfl, hm⟩
      · rintro ⟨pre, post, heq, hm⟩
        cases pre with
        | nil =>
            left
            rw [List.nil_append] at heq
            rw [heq]
            exact hm
        | cons p pre' =>
            right
            simp only [List.cons_append, List.cons.injEq] at heq
            obtain ⟨rfl, rfl⟩ := heq
            exact ih.mpr ⟨pre', post, rfl, hm⟩

/-- The reference filter holds exactly when the declarative pattern
occurs somewhere in the text. -/
theorem contains_arxiv_reference_iff {s : List Char} :
    contains_arxiv_reference s = true ↔ ArxivRefSpec s := by
  rw [contains_arxiv_reference, searchFrom_iff]
  constructor
  · rintro ⟨pre, post, rfl, hm⟩
    obtain ⟨hb, tl, rfl, ht⟩ := matchArxivAt_iff.mp hm
    refine ⟨pre, tl, rfl, matchDigitsTail_sound ht, ?_⟩
    rcases List.eq_nil_or_concat pre with rfl | ⟨tp, p, rfl⟩
    · exact Or.inl rfl
    · simp only [List.concat_eq_append] at hb ⊢
      refine Or.inr ⟨p, tp, rfl, ?_⟩
      rw [lastOpt_concat] at hb
      simpa [boundaryBefore] using hb
  · rintro ⟨pre, tl, rfl, hspec, hbnd⟩
    refine ⟨pre, _, rfl, matchArxivAt_iff.mpr ⟨?_, tl, rfl, matchDigitsTail_complete hspec⟩⟩
    rcases hbnd with rfl | ⟨p, tp, rfl, hp⟩
    · rfl
    · rw [lastOpt_concat]
      simp [boundaryBefore, hp]

/-! ## C4 -/

/-- C4 fails on the code: the regex carries word-boundary assertions,
so the text arXiv:1234.123456, which does contain the literal token
arXiv colon followed by four digits, a dot and five digits (with a
sixth digit after them), is nevertheless not flagged, because the
boundary after the digit group fails and backtracking to four digits
leaves a digit as the next character. -/
theorem C4_counterexample :
    ("arXiv:1234.123456".data =
      [] ++ 'a' :: 'r' :: 'X' :: 'i' :: 'v' :: ':' ::
        (['1', '2', '3', '4'] ++ '.' :: (['1', '2', '3', '4', '5'] ++ ['6']))) ∧
    (['1', '2', '3', '4'] : List Char).all Char.isDigit = true ∧
    (['1', '2', '3', '4', '5'] : List Char).all Char.isDigit = true ∧
    contains_arxiv_reference ("arXiv:1234.123456".data) = false := by decide

/-- C4 (amended): the filter flags exactly the chunks whose content
contains the token arXiv colon at a word boundary (at the start of the
text or after a non-word character) followed by four digits, a period
and four or five digits followed by a word boundary (the end of the
text or a non-word character); in particular a chunk containing
arXiv:2309.00240 is flagged and a chunk containing arXiv:23.456 is
not. -/
theorem C4_reference_filter (s : List Char) :
    (contains_arxiv_reference s = true ↔ ArxivRefSpec s) ∧
    contains_arxiv_reference ("arXiv:2309.00240".data) = true ∧
    contains_arxiv_reference ("arXiv:23.456".data) = false :=
  ⟨contains_arxiv_reference_iff, by decide, by decide⟩

/-! ## C3 -/

/-- C3 fails on the spec-modelled windowing algorithm: its own stopping
rule (stop when the window start reaches the length) makes the text abc
with window 3 and overlap 1 split into two chunks, while the claimed
count formula, the ceiling of (L - O) over (W - O), gives one; and the
empty text yields zero chunks, not one. -/
theorem C3_counterexample :
    windowChunks ['a', 'b', 'c'] 3 1 = [['a', 'b', 'c'], ['c']] ∧
    (windowChunks ['a', 'b', 'c'] 3 1).length = 2 ∧
    ((3 : Nat) - 1 + ((3 : Nat) - 1) - 1) / ((3 : Nat) - 1) = 1 ∧
    windowChunks [] 3 1 = [] := by decide

/-- C3 (amended): with window W and overlap O (O below W) and step
S = W - O, chunk i spans the interval of width W starting at i times S,
clipped to the text, and exists exactly when that start is inside the
text; the number of chunks is the ceiling of L over S for a nonempty
text of length L and zero for the empty text; concatenating each
non-final chunk's first S characters followed by the final chunk
reconstructs the text; the full-content strategy uses W = 500, O = 50,
the summary-only strategy uses W = 2000 by default and O = 0. -/
theorem C3_windowing (s : List Char) (W O i : Nat) (hO : O < W) :
    ((windowChunks s W O)[i]? =
      if i * (W - O) < s.length then some ((s.drop (i * (W - O))).take W) else none) ∧
    (s ≠ [] → (windowChunks s W O).length = (s.length + (W - O) - 1) / (W - O)) ∧
    windowChunks [] W O = [] ∧
    reassemble (W - O) (windowChunks s W O) = s ∧
    content_chunk_size = 500 ∧ content_chunk_overlap = 50 ∧
    summary_chunk_overlap = 0 ∧ default_summary_chunk_size = 2000 := by
  have hS : 0 < W - O := by omega
  have hSW : W - O ≤ W := by omega
  refine ⟨?_, ?_, ?_, ?_, rfl, rfl, rfl, rfl⟩
  · exact windowChunksGo_getElem? hS s.length s i le_rfl
  · intro hs
    rw [windowChunks, windowChunksGo_length hS s.length s hs le_rfl]
    have hpos : 0 < s.length := List.length_pos.mpr hs
    have e1 : s.length + (W - O) - 1 = (s.length - 1) + (W - O) := by omega
    rw [e1, Nat.add_div_right _ hS]
  · rfl
  · exact reassemble_windowChunksGo hS hSW s.length s le_rfl

/-- Closed instance of C3_windowing on the five-character text abcde
with window 3 and overlap 1. -/
theorem C3_windowing_witness :
    (windowChunks ['a', 'b', 'c', 'd', 'e'] 3 1)[1]? = some ['c', 'd', 'e'] ∧
    (windowChunks ['a', 'b', 'c', 'd', 'e'] 3 1).length =
      ((['a', 'b', 'c', 'd', 'e'] : List Char).length + (3 - 1) - 1) / (3 - 1) ∧
    reassemble (3 - 1) (windowChunks ['a', 'b', 'c', 'd', 'e'] 3 1) =
      ['a', 'b', 'c', 'd', 'e'] := by
  have h := C3_windowing ['a', 'b', 'c', 'd', 'e'] 3 1 1 (by decide)
  refine ⟨?_, h.2.1 (by decide), h.2.2.2.1⟩
  rw [h.1]
  decide

/-! ## C5 -/

/-- C5: when num_retrieval is omitted, retrieve asks the similarity
search for exactly as many results as there are registered papers. -/
theorem C5_default_num_retrieval (papers : List (String × Paper))
    (search : String → Int → List Document) (query : String) :
    retrieve papers search query none = search query (papers.length : Int) := rfl

/-! ## C10 -/

/-- C10: an explicit num_retrieval of zero is falsy in Python, so it is
replaced by the number of registered papers before the similarity
search, exactly as when the argument is omitted. -/
theorem C10_zero_num_retrieval (papers : List (String × Paper))
    (search : String → Int → List Document) (query : String) :
    retrieve papers search query (some 0) = search query (papers.length : Int) ∧
    retrieve papers search query (some 0) = retrieve papers search query none := by
  constructor <;> simp [retrieve]

/-! ## C6 -/

/-- The summarization loop maps every chunk to itself with the summary
metadata set to the LLM answer for the fixed prompt, and issues exactly
one call per chunk, in order. -/
theorem summarizeLoop_spec (agent : String → String) (q : String) (l : List Document) :
    summarizeLoop agent q l =
      (l.map fun s => { s with summary := some (agent (summarize_prompt q s.page_content)) },
       l.map fun s => summarize_prompt q s.page_content) := by
  induction l with
  | nil => rfl
  | cons s rest ih => simp [summarizeLoop, ih]

/-- C6: on an empty retrieval, source_and_summarize fails with the
NoSourcesError (the ValueError of the code) before any LLM call; on a
nonempty retrieval it issues one LLM call per retrieved chunk, stores
each answer in that chunk's summary metadata, and returns the mutated
chunks. -/
theorem C6_summarize_sources (papers : List (String × Paper))
    (search : String → Int → List Document) (agent : String → String)
    (q : String) (k : Option Int) :
    (retrieve papers search q k = [] →
      source_and_summarize papers search agent q k = (Except.error noSourcesError, [])) ∧
    (retrieve papers search q k ≠ [] →
      source_and_summarize papers search agent q k =
        (Except.ok ((retrieve papers search q k).map fun s =>
            { s with summary := some (agent (summarize_prompt q s.page_content)) }),
         (retrieve papers search q k).map fun s => summarize_prompt q s.page_content) ∧
      (source_and_summarize papers search agent q k).2.length =
        (retrieve papers search q k).length) := by
  constructor
  · intro h
    simp [source_and_summarize, h]
  · intro h
    have hfalse : ¬((retrieve papers search q k).length = 0) := by
      simpa [List.length_eq_zero] using h
    refine ⟨?_, ?_⟩ <;>
      simp [source_and_summarize, hfalse, summarizeLoop_spec]

/-- Closed instance of C6_summarize_sources: an empty search yields the
error and no call, a one-chunk search yields one summarized chunk and
one call. -/
theorem C6_summarize_sources_witness :
    source_and_summarize [] (fun _ _ => []) (fun _ => "ok") "q" none =
      (Except.error noSourcesError, []) ∧
    source_and_summarize [] (fun _ _ => [sampleDoc]) (fun _ => "ok") "q" none =
      (Except.ok [{ sampleDoc with summary := some "ok" }],
       [summarize_prompt "q" sampleDoc.page_content]) := by
  constructor
  · exact (C6_summarize_sources [] (fun _ _ => []) (fun _ => "ok") "q" none).1 rfl
  · have h := ((C6_summarize_sources [] (fun _ _ => [sampleDoc]) (fun _ => "ok") "q" none).2
      (by simp [retrieve])).1
    simpa [retrieve] using h

/-! ## C7 -/

/-- C7 fails on the code: get_arxiv_citation does not fail on an empty
author list; the comma join of no authors is the empty string and the
citation is produced whenever publish_date has a year. -/
theorem C7_counterexample :
    paperNoAuthors.authors = [] ∧
    get_arxiv_citation paperNoAuthors = Except.ok ", 2023. T. http://u" := by
  exact ⟨rfl, rfl⟩

/-- C7 (amended): get_arxiv_citation returns comma-joined authors,
year, title and url, failing (with the AttributeError the spec calls
MissingAttributeError) exactly when publish_date lacks a year - an
empty author list yields an empty joined prefix, not an error;
get_APA_citation returns first author et al. with the year, failing
with IndexError when authors is empty and with the AttributeError when
publish_date lacks a year. -/
theorem C7_citations (p : Paper) :
    (∀ y, p.publish_date_tm_year = some y →
      get_arxiv_citation p =
        Except.ok (String.intercalate ", " p.authors ++ ", " ++ toString y ++ ". " ++
          p.title ++ ". " ++ p.url)) ∧
    (p.publish_date_tm_year = none →
      get_arxiv_citation p = Except.error PyError.attributeError) ∧
    (p.authors = [] → get_APA_citation p = Except.error PyError.indexError) ∧
    (∀ a rest, p.authors = a :: rest →
      (p.publish_date_tm_year = none →
        get_APA_citation p = Except.error PyError.attributeError) ∧
      (∀ y, p.publish_date_tm_year = some y →
        get_APA_citation p = Except.ok (a ++ " et al. (" ++ toString y ++ ")"))) := by
  refine ⟨?_, ?_, ?_, ?_⟩
  · intro y hy
    simp [get_arxiv_citation, hy]
  · intro hy
    simp [get_arxiv_citation, hy]
  · intro ha
    simp [get_APA_citation, ha]
  · intro a rest ha
    exact ⟨fun hy => by simp [get_APA_citation, ha, hy],
           fun y hy => by simp [get_APA_citation, ha, hy]⟩

/-- Closed instance of C7_citations at a concrete paper with two
authors and a year. -/
theorem C7_citations_witness :
    get_arxiv_citation paperTwoAuthors =
      Except.ok (String.intercalate ", " ["A", "B"] ++ ", " ++ toString (2020 : Int) ++ ". " ++
        "T" ++ ". " ++ "u") ∧
    get_APA_citation paperTwoAuthors =
      Except.ok ("A" ++ " et al. (" ++ toString (2020 : Int) ++ ")") :=
  ⟨(C7_citations paperTwoAuthors).1 2020 rfl,
   ((C7_citations paperTwoAuthors).2.2.2 "A" ["B"] rfl).2 2020 rfl⟩

/-! ## C8 -/

/-- C8: the claim states the intended contract, but the code is broken:
get_paper refers to the global name get_all_papers, which does not
exist (the method is self.get_all_papers), so every call - including a
lookup of a registered title - raises NameError instead of returning
the Paper; the intended body, with self restored, does satisfy the
claim, returning the Paper for a registered title. -/
theorem C8_get_paper_name_error :
    collectionA.get_paper "A" = Except.error PyError.nameError ∧
    collectionA.get_paper_intended "A" = Except.ok paperA ∧
    collectionA.get_paper_intended "Z" = Except.error (PyError.keyError "Z") := by
  refine ⟨rfl, ?_, ?_⟩ <;> rfl

/-! ## C9 -/

/-- Every chunk kept by the full-content processing carries the paper
title as its source metadata. -/
theorem processPaperContent_source {ign : Bool} {p : Paper} {l : List Document} {d : Document}
    (h : d ∈ processPaperContent ign p l) : d.source = some p.title := by
  induction l with
  | nil => simp [processPaperContent] at h
  | cons x rest ih =>
      rw [processPaperContent] at h
      by_cases hx : (ign && contains_arxiv_reference x.page_content) = true
      · rw [if_pos hx] at h
        exact ih h
      · rw [if_neg hx] at h
        rcases List.mem_cons.mp h with rfl | hm
        · rfl
        · exact ih hm

/-- Every chunk of the summary processing carries the paper title as
its source metadata. -/
theorem processPaperSummary_source {p : Paper} {l : List Document} {d : Document}
    (h : d ∈ processPaperSummary p l) : d.source = some p.title := by
  obtain ⟨x, _, rfl⟩ := List.mem_map.mp h
  rfl

/-- A chunk of the ingestion doc list comes from the processing of one
registered paper. -/
theorem mem_initDocList {process : Paper → List Document} {papers : List (String × Paper)}
    {d : Document} (h : d ∈ initDocList process papers) :
    ∃ tp ∈ papers, d ∈ process tp.2 := by
  simp only [initDocList, List.mem_flatten, List.mem_map] at h
  obtain ⟨l, ⟨tp, htp, rfl⟩, hd⟩ := h
  exact ⟨tp, htp, hd⟩

/-- C9 fails on the code as universally stated: the constructor accepts
any mapping, and stamps chunks with the paper's own (sanitized) title,
not with the mapping key, so a mapping whose key differs from its
paper's title yields a chunk whose source matches no registry key. -/
theorem C9_counterexample :
    (initDocList (fun p => processPaperSummary p [sampleDoc]) [("A", paperB)]).map
        Document.source = [some "B"] ∧
    [("A", paperB)].map Prod.fst = ["A"] ∧
    some "B" ≠ some "A" := by
  refine ⟨rfl, rfl, by decide⟩

/-- C9 (amended): for every papers mapping each of whose keys equals
its paper's stored title (as the repository's own constructors arrange,
keying papers by paper.title), every chunk handed to the embedding
index - under either strategy, any reference-filter toggle and any
splitter output - carries a source equal to exactly one title key of
the registry. -/
theorem C9_source_invariant (papers : List (String × Paper)) (split : Paper → List Document)
    (ign : Bool) (hkeys : ∀ tp ∈ papers, (tp.2).title = tp.1) :
    (∀ d ∈ initDocList (fun p => processPaperContent ign p (split p)) papers,
      ∃! t, d.source = some t ∧ t ∈ papers.map Prod.fst) ∧
    (∀ d ∈ initDocList (fun p => processPaperSummary p (split p)) papers,
      ∃! t, d.source = some t ∧ t ∈ papers.map Prod.fst) := by
  constructor
  · intro d hd
    obtain ⟨tp, htp, hmem⟩ := mem_initDocList hd
    have hsrc := processPaperContent_source hmem
    refine ⟨tp.2.title, ⟨hsrc, ?_⟩, ?_⟩
    · rw [hkeys tp htp]
      exact List.mem_map.mpr ⟨tp, htp, rfl⟩
    · rintro y ⟨hy, -⟩
      rw [hsrc] at hy
      injection hy with hy
      exact hy.symm
  · intro d hd
    obtain ⟨tp, htp, hmem⟩ := mem_initDocList hd
    have hsrc := processPaperSummary_source hmem
    refine ⟨tp.2.title, ⟨hsrc, ?_⟩, ?_⟩
    · rw [hkeys tp htp]
      exact List.mem_map.mpr ⟨tp, htp, rfl⟩
    · rintro y ⟨hy, -⟩
      rw [hsrc] at hy
      injection hy with hy
      exact hy.symm

/-- Closed instance of C9_source_invariant on a one-paper registry
keyed by the paper's title. -/
theorem C9_source_invariant_witness :
    ∃! t, sampleDocB.source = some t ∧ t ∈ [("B", paperB)].map Prod.fst := by
  have h := (C9_source_invariant [("B", paperB)] (fun _ => [sampleDoc]) true
      (by
        intro tp htp
        rw [List.mem_singleton] at htp
        subst htp
        decide)).2
  exact h sampleDocB (by decide)

end PaperRepo
